import Mathlib

/-!
Verification of `src/scripts/etsy-pipeline.py` (Etsy listing photo pipeline).

The Python script is shallowly embedded below.  Pure helpers
(`product_key`, `parse_metadata_from_path`, `calculate_price`,
`generate_tags`, `pad_resize`, `add_watermark`) become Lean functions;
the per-group loop of `main` becomes `processGroup`, with filesystem
reads (`Image.open`, `md5` hashing) passed in as explicit oracles and
`None`-returns / caught exceptions modelled with `Option`.

Pixel data of images is modelled symbolically (constructor `Px`): image
geometry (width, height, mode) is tracked exactly, while the result of
resampling a pixel is an abstract token recording its coordinates.  PIL
float arithmetic in `Image.thumbnail` is modelled with exact integer
cross-multiplication, `int(...)` of a nonnegative float ratio as `Nat`
floor division.
-/

namespace EtsyPipeline

/-- Symbolic pixel content.  `bgc c` is a canvas pixel filled with
background color `c`; `orig x y` is pixel `(x, y)` of a loaded source
image; `sub x y` is pixel `(x, y)` of the pasted (aspect-fit resampled)
copy of the current source; `wm x y under` is the watermark pixel
`(x, y)` alpha-composited over the underlying pixel `under`. -/
inductive Px where
  | bgc (color : String)
  | orig (x y : Nat)
  | sub (x y : Nat)
  | wm (x y : Nat) (under : Px)
deriving DecidableEq

/-- A PIL image: geometry, mode string ("RGB", "RGBA", ...), and
symbolic pixel content. -/
structure Img where
  width : Nat
  height : Nat
  mode : String
  pix : Nat → Nat → Px

/-! ### Configuration constants (lines 21-54 of the script) -/

def ALLOWED_EXT : List String := [".jpg", ".jpeg", ".png", ".tif", ".tiff"]

/-- One entry of the `VARIANTS` list: `(label, w, h, bg)`. -/
structure VariantSpec where
  label : String
  w : Nat
  h : Nat
  bg : String
deriving DecidableEq

def VARIANTS : List VariantSpec :=
  [ ⟨"etsy_primary_3000x2400", 3000, 2400, "#ffffff"⟩,
    ⟨"etsy_square_2000", 2000, 2000, "#ffffff"⟩,
    ⟨"website_large_1600", 1600, 1600, "#ffffff"⟩,
    ⟨"website_medium_1000", 1000, 1000, "#ffffff"⟩,
    ⟨"website_thumb_400", 400, 400, "#ffffff"⟩ ]

def ADD_WATERMARK : Bool := true

def WATERMARK_POS : String := "bottom_right"

def MAX_EXTRAS : Nat := 9

def DEFAULT_TAGS : List String :=
  ["fine art print", "photography", "wall art", "landscape", "home decor"]

def DEFAULT_MATERIALS : List String :=
  ["archival ink", "fine-art paper", "museum quality"]

def PRICE_MATRIX : List (String × List (String × Nat)) :=
  [ ("Architecture", [("California", 45), ("Hawaii", 55), ("Arizona", 40), ("Other", 35)]),
    ("Landscapes",   [("California", 50), ("Hawaii", 65), ("Arizona", 45), ("Other", 40)]),
    ("Cityscapes",   [("California", 45), ("Hawaii", 55), ("Arizona", 40), ("Other", 35)]),
    ("Nature",       [("California", 40), ("Hawaii", 60), ("Arizona", 35), ("Other", 30)]),
    ("Other",        [("California", 35), ("Hawaii", 45), ("Arizona", 30), ("Other", 25)]) ]

/-! ### `Image.thumbnail` size computation

`pad_resize` (line 119) calls `im2.thumbnail((w, h), LANCZOS)`.  PIL's
`Image.thumbnail` keeps the image unchanged when both target dimensions
are at least as large as the current ones; otherwise it shrinks to fit,
choosing between floor and ceil of the exact aspect-preserving value so
as to best preserve the aspect ratio (`round_aspect`), with a floor of 1.
Float comparisons are replaced by exact integer cross-multiplication. -/

/-- `math.floor(H * aspect)` for `aspect = w0 / h0`. -/
def raFloorW (w0 h0 H : Nat) : Nat := H * w0 / h0

/-- `math.ceil(H * aspect)` for `aspect = w0 / h0`. -/
def raCeilW (w0 h0 H : Nat) : Nat :=
  if H * w0 % h0 = 0 then H * w0 / h0 else H * w0 / h0 + 1

/-- `round_aspect(H * w0 / h0, key=fun n => |w0 / h0 - n / H|)` from PIL's
`thumbnail`, before the outer `max _ 1`: choose between floor and ceil of
`H * w0 / h0`, preferring the value minimizing the aspect error (floor on
ties, matching Python `min` over `[floor, ceil]`); the error comparison
`|w0 / h0 - fl / H| ≤ |w0 / h0 - ce / H|` is cross-multiplied by `h0 * H`. -/
def roundAspectW (w0 h0 H : Nat) : Nat :=
  if Nat.dist (w0 * H) (raFloorW w0 h0 H * h0) ≤ Nat.dist (w0 * H) (raCeilW w0 h0 H * h0) then
    raFloorW w0 h0 H
  else raCeilW w0 h0 H

/-- `math.floor(W / aspect)` for `aspect = w0 / h0`. -/
def raFloorH (w0 h0 W : Nat) : Nat := W * h0 / w0

/-- `math.ceil(W / aspect)` for `aspect = w0 / h0`. -/
def raCeilH (w0 h0 W : Nat) : Nat :=
  if W * h0 % w0 = 0 then W * h0 / w0 else W * h0 / w0 + 1

/-- `round_aspect(W / aspect, key=fun n => if n = 0 then 0 else |w0 / h0 - W / n|)`
from PIL's `thumbnail`, before the outer `max _ 1`: a floor of `0` wins
with key `0`; otherwise the error comparison
`|w0 / h0 - W / fl| ≤ |w0 / h0 - W / ce|` is cross-multiplied by
`h0 * fl * ce`. -/
def roundAspectH (w0 h0 W : Nat) : Nat :=
  if raFloorH w0 h0 W = 0 then 0
  else if Nat.dist (w0 * raFloorH w0 h0 W) (W * h0) * raCeilH w0 h0 W ≤
      Nat.dist (w0 * raCeilH w0 h0 W) (W * h0) * raFloorH w0 h0 W then
    raFloorH w0 h0 W
  else raCeilH w0 h0 W

/-- Size `(tw, th)` of `im.thumbnail((W, H))` for a source of size
`(w0, h0)`: unchanged if it already fits, otherwise aspect-fit with
PIL's rounding. -/
def thumbnailSize (w0 h0 W H : Nat) : Nat × Nat :=
  if w0 ≤ W ∧ h0 ≤ H then (w0, h0)
  else if H * w0 ≤ W * h0 then
    (max (roundAspectW w0 h0 H) 1, H)
  else
    (W, max (roundAspectH w0 h0 W) 1)

/-- `pad_resize(im, w, h, bg)` (lines 116-122): copy, `thumbnail((w, h))`,
then paste centered at `((w - tw) / 2, (h - th) / 2)` on a fresh `"RGB"`
canvas of exactly `(w, h)` filled with `bg`.  The pasted thumbnail's
pixel content is the symbolic `Px.sub` of its coordinates. -/
def pad_resize (im : Img) (w h : Nat) (bg : String) : Img :=
  let t := thumbnailSize im.width im.height w h
  let dx := (w - t.1) / 2
  let dy := (h - t.2) / 2
  { width := w, height := h, mode := "RGB",
    pix := fun x y =>
      if dx ≤ x ∧ x < dx + t.1 ∧ dy ≤ y ∧ y < dy + t.2 then
        Px.sub (x - dx) (y - dy)
      else Px.bgc bg }

/-- `im.convert(mode)`: geometry and (symbolic) pixels unchanged. -/
def imgConvert (im : Img) (mode : String) : Img :=
  { im with mode := mode }

/-- `int(min(base.size) * WATERMARK_SCALE)` (line 134), with
`WATERMARK_SCALE = 0.20`. -/
def wmTargetShort (base : Img) : Nat :=
  min base.width base.height * 20 / 100

/-- The size the watermark is resized to (line 135):
`(tgt, int(tgt * wm.height / wm.width))` where `tgt` is
`wmTargetShort base`. -/
def watermarkScaledSize (base wmIm : Img) : Nat × Nat :=
  let tgt := wmTargetShort base
  (tgt, tgt * wmIm.height / wmIm.width)

/-- The `pos_map` dictionary of `add_watermark` (lines 143-149), over
`Int` coordinates as in Python. -/
def wmPosMap (base : Img) (wmW wmH margin : Nat) : List (String × (Int × Int)) :=
  [ ("bottom_right", ((base.width : Int) - wmW - margin, (base.height : Int) - wmH - margin)),
    ("bottom_left", ((margin : Int), (base.height : Int) - wmH - margin)),
    ("top_right", ((base.width : Int) - wmW - margin, (margin : Int))),
    ("top_left", ((margin : Int), (margin : Int))),
    ("center", (((base.width : Int) - wmW) / 2, ((base.height : Int) - wmH) / 2)) ]

/-- `add_watermark(im)` (lines 124-155).  The watermark asset is passed
explicitly: `none` models `not WATERMARK_PATH.exists()`.  A negative
paste coordinate makes PIL's `alpha_composite` raise `ValueError`, which
the `except` branch turns into returning `im` unwatermarked; the same
`except` also covers a degenerate watermark (`wm.width = 0`, a
`ZeroDivisionError` at line 135). -/
def add_watermark (wmAsset : Option Img) (im : Img) : Img :=
  if ¬ (ADD_WATERMARK = true) then im
  else
    match wmAsset with
    | none => im
    | some wmImRaw =>
      let base := imgConvert im "RGBA"
      let wmIm := imgConvert wmImRaw "RGBA"
      if wmIm.width = 0 then im
      else
        let s := watermarkScaledSize base wmIm
        let margin := min base.width base.height * 2 / 100
        let pos := (List.lookup WATERMARK_POS (wmPosMap base s.1 s.2 margin)).getD
          (((base.width : Int) - s.1 - margin, (base.height : Int) - s.2 - margin))
        if pos.1 < 0 ∨ pos.2 < 0 then im
        else
          let px := pos.1.toNat
          let py := pos.2.toNat
          let composited : Img :=
            { width := base.width, height := base.height, mode := "RGBA",
              pix := fun x y =>
                if px ≤ x ∧ x < px + s.1 ∧ py ≤ y ∧ y < py + s.2 then
                  Px.wm (x - px) (y - py) (base.pix x y)
                else base.pix x y }
          imgConvert composited "RGB"

/-! ### Slugification (`slugify(stem, max_length=50)`, line 74)

ASCII model of `python-slugify`: lowercase, drop thousands-separator
commas between digits, replace every character outside `[-a-z0-9]` by
`-`, collapse runs of `-`, strip `-` from both ends, then
`smart_truncate` to 50 characters (plain cut followed by another strip,
since `word_boundary=False`).  HTML-entity unescaping and Unicode
transliteration are not modelled; the filenames at hand are ASCII. -/

def isLowerAlnum (c : Char) : Bool :=
  ('a' ≤ c && c ≤ 'z') || ('0' ≤ c && c ≤ '9')

def slugAllowed (c : Char) : Bool := isLowerAlnum c || c = '-'

/-- One character of the `[^-a-z0-9]+ -> "-"` substitution (replacing
each disallowed character and then collapsing dash runs is extensionally
the run-wise substitution). -/
def slugMapChar (c : Char) : Char := if slugAllowed c then c else '-'

/-- `NUMBERS_PATTERN`: remove each `,` that sits between two digits. -/
def removeNumberSeps : List Char → List Char
  | [] => []
  | [c] => [c]
  | [c, d] => [c, d]
  | a :: ',' :: b :: rest =>
      if a.isDigit && b.isDigit then a :: removeNumberSeps (b :: rest)
      else a :: removeNumberSeps (',' :: b :: rest)
  | a :: b :: c :: rest => a :: removeNumberSeps (b :: c :: rest)

/-- `DUPLICATE_DASH_PATTERN`: collapse runs of `-` to a single `-`. -/
def collapseDashes : List Char → List Char
  | [] => []
  | [c] => [c]
  | a :: b :: rest =>
      if a = '-' && b = '-' then collapseDashes (b :: rest)
      else a :: collapseDashes (b :: rest)

/-- `.strip('-')`. -/
def stripDashes (l : List Char) : List Char :=
  ((l.dropWhile (· = '-')).reverse.dropWhile (· = '-')).reverse

/-- `smart_truncate(text, 50, word_boundary=False, '-')`:
identity below the cap, otherwise a plain cut re-stripped of dashes. -/
def smartTruncate (l : List Char) (n : Nat) : List Char :=
  if l.length < n then l else stripDashes (l.take n)

def slugCore (l : List Char) : List Char :=
  stripDashes (collapseDashes ((removeNumberSeps (l.map Char.toLower)).map slugMapChar))

/-- `slugify(s, max_length=50)` (ASCII model, see above). -/
def slugify50 (s : String) : String :=
  (smartTruncate (slugCore s.toList) 50).asString

/-! ### `PRODUCT_REGEX` (line 54) and `product_key` (lines 65-74)

`PRODUCT_REGEX = ^([A-Za-z0-9\-_ ]+?)[-_ ]?(main|extra|listing)?[-_ ]?
\d{0,2}[-_ ]?\d{4}[-_ ]?[a-f0-9]*\.(jpg|jpeg|png|tif|tiff)$` with
`re.I`.  The lazy group means: group 1 is the shortest non-empty prefix
over the group-1 character class whose remainder matches the rest of the
pattern.  The rest of the pattern is decided by a small nondeterministic
matcher over suffix sets. -/

def keyChar (c : Char) : Bool :=
  ('A' ≤ c && c ≤ 'Z') || ('a' ≤ c && c ≤ 'z') || ('0' ≤ c && c ≤ '9') ||
  c = '-' || c = '_' || c = ' '

def sepChar (c : Char) : Bool := c = '-' || c = '_' || c = ' '

def hexChar (c : Char) : Bool :=
  c.isDigit || ('a' ≤ c.toLower && c.toLower ≤ 'f')

/-- `[-_ ]?`: from each candidate suffix, optionally consume one separator. -/
def stepOptSep (ss : List (List Char)) : List (List Char) :=
  ss.flatMap fun s =>
    match s with
    | c :: t => if sepChar c then [s, t] else [s]
    | [] => [s]

/-- Consume a literal word case-insensitively. -/
def stripWordCI : List Char → List Char → Option (List Char)
  | [], s => some s
  | _ :: _, [] => none
  | w :: ws, c :: cs => if w.toLower = c.toLower then stripWordCI ws cs else none

/-- `(main|extra|listing)?`. -/
def stepOptRole (ss : List (List Char)) : List (List Char) :=
  ss.flatMap fun s =>
    s :: (["main".toList, "extra".toList, "listing".toList].filterMap fun w => stripWordCI w s)

/-- Consume exactly one digit. -/
def stepDigit (ss : List (List Char)) : List (List Char) :=
  ss.filterMap fun s =>
    match s with
    | c :: t => if c.isDigit then some t else none
    | [] => none

/-- `\d{0,2}`. -/
def stepDigitsUpTo2 (ss : List (List Char)) : List (List Char) :=
  ss ++ stepDigit ss ++ stepDigit (stepDigit ss)

/-- `\d{4}`. -/
def stepDigits4 (ss : List (List Char)) : List (List Char) :=
  stepDigit (stepDigit (stepDigit (stepDigit ss)))

/-- `[a-f0-9]*` (case-insensitive): all suffixes reachable by consuming
leading hex characters. -/
def stepHexStar : List Char → List (List Char)
  | [] => [[]]
  | c :: t => (c :: t) :: (if hexChar c then stepHexStar t else [])

/-- `\.(jpg|jpeg|png|tif|tiff)$` (case-insensitive). -/
def endExtOk (s : List Char) : Bool :=
  match s with
  | '.' :: e =>
      ["jpg", "jpeg", "png", "tif", "tiff"].any fun x => (e.map Char.toLower) = x.toList
  | _ => false

/-- Does `s` match the part of `PRODUCT_REGEX` after group 1? -/
def matchRest (s : List Char) : Bool :=
  let s1 := stepOptSep [s]
  let s2 := stepOptSep (stepOptRole s1)
  let s3 := stepOptSep (stepDigitsUpTo2 s2)
  let s4 := stepOptSep (stepDigits4 s3)
  (s4.flatMap stepHexStar).any endExtOk

/-- `PRODUCT_REGEX.match(name)`'s group 1 (lazy: smallest viable split). -/
def regexGroup1 (name : List Char) : Option (List Char) :=
  ((List.range' 1 name.length).find? fun k =>
      (name.take k).all keyChar && matchRest (name.drop k)).map (name.take ·)

/-- `pathlib`'s `p.stem` for a bare filename: the name without its final
suffix; a leading dot or a trailing dot yields no suffix. -/
def pathStem (name : List Char) : List Char :=
  let ext := (name.reverse.takeWhile (· ≠ '.')).length
  if ext + 1 < name.length ∧ ext ≠ 0 then name.take (name.length - ext - 1)
  else name

/-- `product_key(p)` (lines 65-74): regex group 1 when the pattern
matches, else the part of `p.stem` before the first `_` (or the whole
stem), then `slugify(stem, max_length=50)`. -/
def product_key (name : String) : String :=
  let stem : List Char :=
    match regexGroup1 name.toList with
    | some g => g
    | none =>
        let st := pathStem name.toList
        if st.contains '_' then st.takeWhile (· ≠ '_') else st
  slugify50 stem.asString

/-! ### `parse_metadata_from_path` (lines 76-103) -/

/-- Is `n` a (contiguous) substring of `h`?  Models Python `n in h`. -/
def leadsL : List Char → List Char → Bool
  | [], _ => true
  | _ :: _, [] => false
  | a :: xs, b :: ys => a = b && leadsL xs ys

def containsSubL (n : List Char) : List Char → Bool
  | [] => leadsL n []
  | c :: rest => leadsL n (c :: rest) || containsSubL n rest

def containsSub (n h : String) : Bool := containsSubL n.toList h.toList

/-- Python `str.lower()` (ASCII). -/
def pyLower (s : String) : String := (s.toList.map Char.toLower).asString

structure PathMeta where
  category : String
  location : String
deriving DecidableEq

/-- The category `if any(...) ... elif ...` chain (lines 86-93), over the
already-lowercased path string. -/
def parseCategory (s : String) : String :=
  if containsSub "landscape" s || containsSub "nature" s || containsSub "scenic" s then
    "Landscapes"
  else if containsSub "architecture" s || containsSub "building" s || containsSub "structure" s then
    "Architecture"
  else if containsSub "city" s || containsSub "urban" s || containsSub "skyline" s then
    "Cityscapes"
  else if containsSub "nature" s || containsSub "wildlife" s || containsSub "natural" s then
    "Nature"
  else "Other"

/-- The location `if any(...) ... elif ...` chain (lines 96-101), over
the already-lowercased path string. -/
def parseLocation (s : String) : String :=
  if containsSub "hawaii" s || containsSub "maui" s || containsSub "oahu" s then
    "Hawaii"
  else if containsSub "california" s || containsSub "ca" s || containsSub "big_sur" s ||
      containsSub "carmel" s || containsSub "monterey" s then
    "California"
  else if containsSub "arizona" s || containsSub "az" s || containsSub "sedona" s ||
      containsSub "flagstaff" s then
    "Arizona"
  else "Other"

/-- `parse_metadata_from_path(p)`: case-insensitive keyword matching of
`str(p).lower()` against the category chain (lines 86-93) and the
location chain (lines 96-101), each defaulting to `"Other"`. -/
def parse_metadata_from_path (pathStr : String) : PathMeta :=
  let s := pyLower pathStr
  { category := parseCategory s, location := parseLocation s }

/-! ### `calculate_price` (lines 168-171) -/

def lookupStr {α : Type} (m : List (String × α)) (k : String) : Option α :=
  (m.find? fun kv => kv.1 = k).map (·.2)

/-- `calculate_price(category, location)`:
`cat_prices = PRICE_MATRIX.get(category, PRICE_MATRIX['Other'])` followed
by `cat_prices.get(location, cat_prices['Other'])`.  The two `['Other']`
subscripts would raise `KeyError` if absent, hence the `Option`. -/
def calculate_price (category location : String) : Option Nat := do
  let defaultRow ← lookupStr PRICE_MATRIX "Other"
  let catPrices := (lookupStr PRICE_MATRIX category).getD defaultRow
  let defaultPrice ← lookupStr catPrices "Other"
  pure ((lookupStr catPrices location).getD defaultPrice)

/-- The price row `calculate_price` selects for `category`. -/
def priceRowFor (category : String) : List (String × Nat) :=
  (lookupStr PRICE_MATRIX category).getD ((lookupStr PRICE_MATRIX "Other").getD [])

/-! ### `generate_tags` (lines 173-196) -/

/-- Python `str.split()` : words separated by whitespace runs. -/
def wordsAux : List Char → List Char → List (List Char)
  | cur, [] => if cur.isEmpty then [] else [cur.reverse]
  | cur, c :: rest =>
      if c.isWhitespace then
        if cur.isEmpty then wordsAux [] rest else cur.reverse :: wordsAux [] rest
      else wordsAux (c :: cur) rest

def pySplitWs (s : String) : List String := (wordsAux [] s.toList).map List.asString

/-- `list(dict.fromkeys(tags))`: deduplicate keeping first occurrences. -/
def dedupKeepFirst : List String → List String
  | [] => []
  | x :: xs => x :: dedupKeepFirst (xs.filter fun y => y != x)
termination_by l => l.length
decreasing_by
  simp only [List.length_cons]
  exact Nat.lt_succ_of_le (List.length_filter_le _ _)

/-- The category-specific extra tags (lines 178-185). -/
def categoryExtraTags (category : String) : List String :=
  if category = "Landscapes" then ["nature", "scenic", "landscape photography"]
  else if category = "Architecture" then ["building", "structure", "architectural"]
  else if category = "Cityscapes" then ["urban", "city", "skyline"]
  else if category = "Nature" then ["natural", "outdoor", "wilderness"]
  else []

/-- `generate_tags(product_key, category, location)` (lines 173-196). -/
def generate_tags (productKey category location : String) : List String :=
  let tags := DEFAULT_TAGS
  let tags := tags ++ categoryExtraTags category
  let tags := tags ++ (if location ≠ "Other" then [pyLower location] else [])
  let keywords := pySplitWs (productKey.replace "-" " ")
  let tags := tags ++ keywords.filter (fun k => 2 < k.length)
  (dedupKeepFirst tags).take 13

/-- The tag list as the spec describes it: base set, category extras,
lowercased location when not "Other", product-key tokens longer than 2,
deduplicated first-seen, truncated to 13.  (Spec-shaped companion of
`generate_tags`, for the refinement statement of claim C5.) -/
def specTagsList (productKey category location : String) : List String :=
  (dedupKeepFirst
    (DEFAULT_TAGS ++ categoryExtraTags category ++
      (if location ≠ "Other" then [pyLower location] else []) ++
      (pySplitWs (productKey.replace "-" " ")).filter (fun k => 2 < k.length))).take 13

/-! ### The per-group processing of `main` (lines 268-354)

Filesystem effects become oracles: `loadR : String → Option Img` is
`load_rgb` (lines 105-114; `none` is a decode failure, with the mode
normalisation `im.convert("RGB")` already applied inside the oracle's
`Img`), and `md5 : String → String` is `md5hash` (lines 157-166).
Saving a JPEG is modelled as recording its output path.  An exception
anywhere in the `try` block is the `except ... continue` at line 352,
i.e. `none`. -/

/-- Python `str.title()`: uppercase each letter that follows a
non-letter, lowercase the other letters (ASCII). -/
def pyTitleAux : Bool → List Char → List Char
  | _, [] => []
  | prevAlpha, c :: rest =>
      (if c.isAlpha then (if prevAlpha then c.toLower else c.toUpper) else c) ::
        pyTitleAux c.isAlpha rest

def pyTitle (s : String) : String := (pyTitleAux false s.toList).asString

structure Dimensions where
  width : Nat
  height : Nat
deriving DecidableEq

/-- The `website_product` record (lines 335-349). -/
structure WebsiteProduct where
  id : String
  title : String
  description : String
  category : String
  location : String
  image_type : String
  web_path : String
  thumbnail_path : String
  large_path : String
  dimensions : Dimensions
  tags : List String
  base_price : Nat
  variants : List (String × String)
deriving DecidableEq

/-- One row of `products_for_import.csv` (lines 374-383). -/
structure ImportCsvRow where
  title : String
  description : String
  image_url : String
  base_price : Nat
  category : String
  tags : String
  width : Nat
  height : Nat
deriving DecidableEq

/-- The flattening of a website record into its CSV row (lines 374-383). -/
def websiteCsvRow (p : WebsiteProduct) : ImportCsvRow :=
  { title := p.title,
    description := p.description,
    image_url := p.web_path,
    base_price := p.base_price,
    category := p.category,
    tags := String.intercalate ", " p.tags,
    width := p.dimensions.width,
    height := p.dimensions.height }

/-- The loop over `enumerate(files[1:MAX_EXTRAS + 1])` (lines 295-306):
`i` is the enumeration index (advancing also past decode failures), a
decode failure `continue`s, a success appends the saved extra path
`{key}_extra_{i+1}_{md5hash(f)}.jpg` inside the product directory. -/
def extrasLoop (loadR : String → Option Img) (md5 : String → String)
    (dir key : String) : Nat → List String → List String
  | _, [] => []
  | i, f :: rest =>
      match loadR f with
      | none => extrasLoop loadR md5 dir key (i + 1) rest
      | some _ =>
          (dir ++ "/" ++ key ++ "_extra_" ++ toString (i + 1) ++ "_" ++ md5 f ++ ".jpg") ::
            extrasLoop loadR md5 dir key (i + 1) rest

/-- What one iteration of the product loop of `main` produces for a
group that is not skipped. -/
structure GroupResult where
  key : String
  metadata : PathMeta
  variant_paths : List (String × String)
  additional_images : List String
  website : WebsiteProduct

/-- One iteration of `for key, files in groups.items()` (lines 268-354).
`none` means the group contributed nothing (primary decode failure at
line 281, or an exception caught at line 352 — including the
`IndexError` of `files[0]` on an empty list and a `KeyError` from the
price matrix). -/
def processGroup (loadR : String → Option Img) (md5 : String → String)
    (wmAsset : Option Img) (key : String) (files : List String) : Option GroupResult :=
  match files with
  | [] => none
  | primary :: rest =>
    let dir := "etsy_images/" ++ key
    let metadata := parse_metadata_from_path primary
    match loadR primary with
    | none => none
    | some im =>
      let variant_paths := VARIANTS.map fun v =>
        (v.label, dir ++ "/" ++ key ++ "_" ++ v.label ++ ".jpg")
      let variant_images := VARIANTS.map fun v =>
        add_watermark wmAsset (pad_resize im v.w v.h v.bg)
      let additional_images := extrasLoop loadR md5 dir key 0 (rest.take MAX_EXTRAS)
      let title := pyTitle (key.replace "-" " ")
      let category := metadata.category
      let location := metadata.location
      match calculate_price category location with
      | none => none
      | some price =>
        let tags := generate_tags key category location
        let website : WebsiteProduct :=
          { id := key,
            title := title,
            description := "Beautiful " ++ pyLower category ++ " photography from " ++
              location ++ ". Professional quality print ready for your home or office.",
            category := category,
            location := location,
            image_type := "Main_Images",
            web_path := "/images/" ++ key ++ "_website_medium_1000.jpg",
            thumbnail_path := "/images/" ++ key ++ "_website_thumb_400.jpg",
            large_path := "/images/" ++ key ++ "_website_large_1600.jpg",
            dimensions := ⟨im.width, im.height⟩,
            tags := tags,
            base_price := price,
            variants := variant_paths }
        let _ := variant_images
        some { key := key, metadata := metadata, variant_paths := variant_paths,
               additional_images := additional_images, website := website }

/-! ## Helper lemmas -/

/-- `calculate_price` rewritten through the selected row:
`PRICE_MATRIX['Other']` is concretely present, so the first bind always
succeeds and the selected row is `priceRowFor category`. -/
theorem calculate_price_eq (c l : String) :
    calculate_price c l =
      (lookupStr (priceRowFor c) "Other").bind fun d =>
        some ((lookupStr (priceRowFor c) l).getD d) := rfl

/-- Every row of the price matrix has an `"Other"` column. -/
theorem priceRow_has_other (c : String) : (lookupStr (priceRowFor c) "Other").isSome := by
  have hall : ∀ pr ∈ PRICE_MATRIX, (lookupStr pr.2 "Other").isSome := by decide
  unfold priceRowFor
  cases h : lookupStr PRICE_MATRIX c with
  | none => simp only [h, Option.getD_none]; decide
  | some row =>
      simp only [lookupStr, Option.map_eq_some'] at h
      obtain ⟨kv, hfind, hkv⟩ := h
      have hmem : kv ∈ PRICE_MATRIX := List.mem_of_find?_eq_some hfind
      simpa [hkv] using hall kv hmem

/-- `calculate_price` never fails. -/
theorem calculate_price_isSome (c l : String) : (calculate_price c l).isSome := by
  obtain ⟨d, hd⟩ := Option.isSome_iff_exists.mp (priceRow_has_other c)
  rw [calculate_price_eq, hd]
  rfl

theorem mem_dedupKeepFirst {a : String} : ∀ {l : List String}, a ∈ dedupKeepFirst l → a ∈ l := by
  intro l
  induction l using dedupKeepFirst.induct with
  | case1 => simp [dedupKeepFirst]
  | case2 x xs ih =>
      intro h
      rw [dedupKeepFirst] at h
      rcases List.mem_cons.mp h with h | h
      · exact h ▸ List.mem_cons_self x xs
      · exact List.mem_cons_of_mem x (List.mem_of_mem_filter (ih h))

theorem nodup_dedupKeepFirst : ∀ l : List String, (dedupKeepFirst l).Nodup := by
  intro l
  induction l using dedupKeepFirst.induct with
  | case1 => simp [dedupKeepFirst]
  | case2 x xs ih =>
      rw [dedupKeepFirst]
      refine List.nodup_cons.mpr ⟨?_, ih⟩
      intro hx
      have := List.of_mem_filter (mem_dedupKeepFirst hx)
      simp at this

/-- The extras loop produces exactly one saved path per decodable file
of its slice, whatever the enumeration offset. -/
theorem extrasLoop_length (loadR : String → Option Img) (md5 : String → String)
    (dir key : String) :
    ∀ (slice : List String) (i : Nat),
      (extrasLoop loadR md5 dir key i slice).length =
        (slice.filter fun f => (loadR f).isSome).length := by
  intro slice
  induction slice with
  | nil => intro i; rfl
  | cons f t ih =>
      intro i
      rw [extrasLoop]
      cases h : loadR f with
      | none => simp [h, List.filter_cons, ih]
      | some im => simp [h, List.filter_cons, ih]

/-- A small constant test image. -/
def cImg : Img := ⟨800, 600, "RGB", fun _ _ => Px.orig 0 0⟩

/-- A load oracle under which only `"a.jpg"` fails to decode. -/
def c1LoadR : String → Option Img := fun f => if f = "a.jpg" then none else some cImg

/-- A square 1000x1000 base image. -/
def c3Base : Img := ⟨1000, 1000, "RGB", fun _ _ => Px.orig 0 0⟩

/-- A landscape (wider-than-tall) watermark asset. -/
def c3WmLandscape : Img := ⟨400, 200, "RGBA", fun _ _ => Px.orig 0 0⟩

/-- A portrait (taller-than-wide) watermark asset. -/
def c3WmPortrait : Img := ⟨200, 400, "RGBA", fun _ _ => Px.orig 0 0⟩

/-- Deduplication keeps the five (pairwise distinct) default tags as the
first five entries, whatever follows them. -/
theorem dedup_five (R : List String) :
    dedupKeepFirst (DEFAULT_TAGS ++ R) =
      "fine art print" :: "photography" :: "wall art" :: "landscape" :: "home decor" ::
        dedupKeepFirst (((((R.filter (fun y => y != "fine art print")).filter
            (fun y => y != "photography")).filter (fun y => y != "wall art")).filter
            (fun y => y != "landscape")).filter (fun y => y != "home decor")) := by
  simp +decide [DEFAULT_TAGS, dedupKeepFirst, List.filter_append]

/-! ### `thumbnailSize` bounds (for claim C4) -/

theorem raFloorW_le {w0 h0 H B : Nat} (hh0 : 0 < h0) (h : H * w0 ≤ B * h0) :
    raFloorW w0 h0 H ≤ B := by
  unfold raFloorW
  have hdm := Nat.div_add_mod (H * w0) h0
  have hq : h0 * (H * w0 / h0) ≤ H * w0 := Nat.le.intro hdm
  have hble : h0 * (H * w0 / h0) ≤ h0 * B := le_trans hq (by rw [Nat.mul_comm h0 B]; exact h)
  exact Nat.le_of_mul_le_mul_left hble hh0

theorem raCeilW_le {w0 h0 H B : Nat} (hh0 : 0 < h0) (h : H * w0 ≤ B * h0) :
    raCeilW w0 h0 H ≤ B := by
  unfold raCeilW
  split
  · exact raFloorW_le hh0 h
  · next hnd =>
      have hfle : H * w0 / h0 ≤ B := raFloorW_le hh0 h
      rcases Nat.lt_or_ge (H * w0 / h0) B with h' | h'
      · omega
      · exfalso
        have hfeq : H * w0 / h0 = B := le_antisymm hfle h'
        have hdm := Nat.div_add_mod (H * w0) h0
        have hup : H * w0 ≤ h0 * (H * w0 / h0) := by
          rw [hfeq, Nat.mul_comm h0 B]; exact h
        omega

theorem roundAspectW_le {w0 h0 H B : Nat} (hh0 : 0 < h0) (hB : 1 ≤ B)
    (h : H * w0 ≤ B * h0) : max (roundAspectW w0 h0 H) 1 ≤ B := by
  unfold roundAspectW
  have h1 := raFloorW_le hh0 h
  have h2 := raCeilW_le hh0 h
  split <;> omega

theorem roundAspectW_dist {w0 h0 H : Nat} (hh0 : 0 < h0) :
    Nat.dist (max (roundAspectW w0 h0 H) 1 * h0) (H * w0) ≤ h0 := by
  have hdm := Nat.div_add_mod (H * w0) h0
  have hmlt : H * w0 % h0 < h0 := Nat.mod_lt _ hh0
  have hval : roundAspectW w0 h0 H = raFloorW w0 h0 H ∨
      roundAspectW w0 h0 H = raCeilW w0 h0 H := by
    unfold roundAspectW
    split
    · exact Or.inl rfl
    · exact Or.inr rfl
  have hfl : Nat.dist (raFloorW w0 h0 H * h0) (H * w0) ≤ h0 := by
    unfold raFloorW
    rw [Nat.mul_comm (H * w0 / h0) h0]
    simp only [Nat.dist]
    omega
  have hce : Nat.dist (raCeilW w0 h0 H * h0) (H * w0) ≤ h0 := by
    unfold raCeilW
    split
    · rw [Nat.mul_comm (H * w0 / h0) h0]
      simp only [Nat.dist]
      omega
    · rw [Nat.succ_mul, Nat.mul_comm (H * w0 / h0) h0]
      simp only [Nat.dist]
      omega
  by_cases hq0 : H * w0 / h0 = 0
  · rw [hq0, Nat.mul_zero, Nat.zero_add] at hdm
    have hsmall : H * w0 < h0 := hdm ▸ hmlt
    have h01 : roundAspectW w0 h0 H ≤ 1 := by
      rcases hval with h | h <;> rw [h]
      · unfold raFloorW
        omega
      · unfold raCeilW
        split <;> omega
    have hmax : max (roundAspectW w0 h0 H) 1 = 1 := by omega
    rw [hmax, Nat.one_mul]
    simp only [Nat.dist]
    omega
  · have hq1 : 1 ≤ raFloorW w0 h0 H := Nat.pos_of_ne_zero hq0
    have hce1 : 1 ≤ raCeilW w0 h0 H := by
      have h' : 0 < H * w0 / h0 := Nat.pos_of_ne_zero hq0
      unfold raCeilW
      split <;> omega
    rcases hval with h | h <;> rw [h]
    · rw [Nat.max_eq_left hq1]
      exact hfl
    · rw [Nat.max_eq_left hce1]
      exact hce

theorem raFloorH_le {w0 h0 W B : Nat} (hw0 : 0 < w0) (h : W * h0 ≤ B * w0) :
    raFloorH w0 h0 W ≤ B := by
  unfold raFloorH
  have hdm := Nat.div_add_mod (W * h0) w0
  have hq : w0 * (W * h0 / w0) ≤ W * h0 := Nat.le.intro hdm
  have hble : w0 * (W * h0 / w0) ≤ w0 * B := le_trans hq (by rw [Nat.mul_comm w0 B]; exact h)
  exact Nat.le_of_mul_le_mul_left hble hw0

theorem raCeilH_le {w0 h0 W B : Nat} (hw0 : 0 < w0) (h : W * h0 ≤ B * w0) :
    raCeilH w0 h0 W ≤ B := by
  unfold raCeilH
  split
  · exact raFloorH_le hw0 h
  · next hnd =>
      have hfle : W * h0 / w0 ≤ B := raFloorH_le hw0 h
      rcases Nat.lt_or_ge (W * h0 / w0) B with h' | h'
      · omega
      · exfalso
        have hfeq : W * h0 / w0 = B := le_antisymm hfle h'
        have hdm := Nat.div_add_mod (W * h0) w0
        have hup : W * h0 ≤ w0 * (W * h0 / w0) := by
          rw [hfeq, Nat.mul_comm w0 B]; exact h
        omega

theorem roundAspectH_le {w0 h0 W B : Nat} (hw0 : 0 < w0) (hB : 1 ≤ B)
    (h : W * h0 ≤ B * w0) : max (roundAspectH w0 h0 W) 1 ≤ B := by
  unfold roundAspectH
  have h1 := raFloorH_le hw0 h
  have h2 := raCeilH_le hw0 h
  split
  · omega
  · split <;> omega

theorem roundAspectH_dist {w0 h0 W : Nat} (hw0 : 0 < w0) :
    Nat.dist (max (roundAspectH w0 h0 W) 1 * w0) (W * h0) ≤ w0 := by
  have hdm := Nat.div_add_mod (W * h0) w0
  have hmlt : W * h0 % w0 < w0 := Nat.mod_lt _ hw0
  have hval : (raFloorH w0 h0 W = 0 ∧ roundAspectH w0 h0 W = 0) ∨
      roundAspectH w0 h0 W = raFloorH w0 h0 W ∨
      roundAspectH w0 h0 W = raCeilH w0 h0 W := by
    unfold roundAspectH
    split
    · next hz => exact Or.inl ⟨hz, rfl⟩
    · split
      · exact Or.inr (Or.inl rfl)
      · exact Or.inr (Or.inr rfl)
  have hfl : Nat.dist (raFloorH w0 h0 W * w0) (W * h0) ≤ w0 := by
    unfold raFloorH
    rw [Nat.mul_comm (W * h0 / w0) w0]
    simp only [Nat.dist]
    omega
  have hce : Nat.dist (raCeilH w0 h0 W * w0) (W * h0) ≤ w0 := by
    unfold raCeilH
    split
    · rw [Nat.mul_comm (W * h0 / w0) w0]
      simp only [Nat.dist]
      omega
    · rw [Nat.succ_mul, Nat.mul_comm (W * h0 / w0) w0]
      simp only [Nat.dist]
      omega
  by_cases hq0 : W * h0 / w0 = 0
  · rw [hq0, Nat.mul_zero, Nat.zero_add] at hdm
    have hsmall : W * h0 < w0 := hdm ▸ hmlt
    have h01 : roundAspectH w0 h0 W ≤ 1 := by
      rcases hval with ⟨-, h⟩ | h | h <;> rw [h]
      · omega
      · unfold raFloorH
        omega
      · unfold raCeilH
        split <;> omega
    have hmax : max (roundAspectH w0 h0 W) 1 = 1 := by omega
    rw [hmax, Nat.one_mul]
    simp only [Nat.dist]
    omega
  · have hq1 : 1 ≤ raFloorH w0 h0 W := Nat.pos_of_ne_zero hq0
    have hce1 : 1 ≤ raCeilH w0 h0 W := by
      have h' : 0 < W * h0 / w0 := Nat.pos_of_ne_zero hq0
      unfold raCeilH
      split <;> omega
    rcases hval with ⟨hz, -⟩ | h | h
    · exact absurd hz hq0
    · rw [h, Nat.max_eq_left hq1]
      exact hfl
    · rw [h, Nat.max_eq_left hce1]
      exact hce

/-- The geometry contract of PIL's `thumbnail`: the result fits in the
requested box, never exceeds the source (no upscaling), and preserves the
aspect ratio up to a one-pixel rounding bound. -/
theorem thumbnailSize_spec (w0 h0 W H : Nat) (hw0 : 0 < w0) (hh0 : 0 < h0)
    (hW : 0 < W) (hH : 0 < H) :
    (thumbnailSize w0 h0 W H).1 ≤ W ∧ (thumbnailSize w0 h0 W H).2 ≤ H ∧
    (thumbnailSize w0 h0 W H).1 ≤ w0 ∧ (thumbnailSize w0 h0 W H).2 ≤ h0 ∧
    Nat.dist ((thumbnailSize w0 h0 W H).1 * h0) ((thumbnailSize w0 h0 W H).2 * w0) ≤
      max w0 h0 := by
  unfold thumbnailSize
  split
  · next hfit =>
      refine ⟨hfit.1, hfit.2, le_refl _, le_refl _, ?_⟩
      rw [Nat.mul_comm w0 h0]
      simp [Nat.dist]
  · next hnofit =>
      split
      · next hbr =>
          -- landscape-relative branch: height pinned to H
          have hHh0 : H ≤ h0 := by
            by_contra hc
            push_neg at hc
            have h1 : ¬ w0 ≤ W := fun hw => hnofit ⟨hw, le_of_lt hc⟩
            push_neg at h1
            have h2 : W * h0 < w0 * h0 := (Nat.mul_lt_mul_right hh0).mpr h1
            have h3 : h0 * w0 < H * w0 := (Nat.mul_lt_mul_right hw0).mpr hc
            rw [Nat.mul_comm h0 w0] at h3
            omega
          have hx1 : max (roundAspectW w0 h0 H) 1 ≤ W := roundAspectW_le hh0 hW hbr
          have hx2 : max (roundAspectW w0 h0 H) 1 ≤ w0 := by
            refine roundAspectW_le hh0 hw0 ?_
            calc H * w0 ≤ h0 * w0 := Nat.mul_le_mul_right _ hHh0
              _ = w0 * h0 := Nat.mul_comm _ _
          exact ⟨hx1, le_refl _, hx2, hHh0,
            le_trans (roundAspectW_dist hh0) (le_max_right _ _)⟩
      · next hbr =>
          push_neg at hbr
          have hble : W * h0 ≤ H * w0 := le_of_lt hbr
          have hWw0 : W ≤ w0 := by
            by_contra hc
            push_neg at hc
            have h1 : ¬ h0 ≤ H := fun hh => hnofit ⟨le_of_lt hc, hh⟩
            push_neg at h1
            have h2 : H * w0 < h0 * w0 := (Nat.mul_lt_mul_right hw0).mpr h1
            have h3 : w0 * h0 < W * h0 := (Nat.mul_lt_mul_right hh0).mpr hc
            rw [Nat.mul_comm w0 h0] at h3
            omega
          have hy1 : max (roundAspectH w0 h0 W) 1 ≤ H := roundAspectH_le hw0 hH hble
          have hy2 : max (roundAspectH w0 h0 W) 1 ≤ h0 := by
            refine roundAspectH_le hw0 hh0 ?_
            calc W * h0 ≤ w0 * h0 := Nat.mul_le_mul_right _ hWw0
              _ = h0 * w0 := Nat.mul_comm _ _
          refine ⟨le_refl _, hy1, hWw0, hy2, ?_⟩
          rw [Nat.dist_comm]
          exact le_trans (roundAspectH_dist hw0) (le_max_left _ _)

/-- `add_watermark` never changes an image's geometry, and an `"RGB"`
input yields an `"RGB"` output in every branch (no-op, exception path,
and successful composite alike). -/
theorem add_watermark_geometry (wmA : Option Img) (im : Img) :
    (add_watermark wmA im).width = im.width ∧
    (add_watermark wmA im).height = im.height ∧
    (im.mode = "RGB" → (add_watermark wmA im).mode = "RGB") := by
  cases wmA with
  | none => exact ⟨rfl, rfl, fun h => h⟩
  | some wmRaw =>
      simp only [add_watermark, ADD_WATERMARK, imgConvert, not_true_eq_false, if_false]
      split_ifs <;>
        first
        | exact ⟨rfl, rfl, fun h => h⟩
        | exact ⟨rfl, rfl, fun _ => rfl⟩

/-! ### Slug shape lemmas (for claim C2) -/

/-- "No double dash": adjacent characters are not both `-`. -/
def noDD (a b : Char) : Prop := ¬(a = '-' ∧ b = '-')

theorem slugMapChar_allowed (c : Char) : slugAllowed (slugMapChar c) = true := by
  unfold slugMapChar
  split
  · next h => exact h
  · decide

theorem mem_collapseDashes {c : Char} : ∀ {l : List Char}, c ∈ collapseDashes l → c ∈ l := by
  intro l
  induction l using collapseDashes.induct with
  | case1 => simp [collapseDashes]
  | case2 x => simp [collapseDashes]
  | case3 a b rest hab ih =>
      rw [collapseDashes, if_pos hab]
      intro h
      exact List.mem_cons_of_mem a (ih h)
  | case4 a b rest hab ih =>
      rw [collapseDashes, if_neg hab]
      intro h
      rcases List.mem_cons.mp h with h | h
      · exact h ▸ List.mem_cons_self _ _
      · exact List.mem_cons_of_mem a (ih h)

theorem collapseDashes_head : ∀ (x : Char) (xs : List Char),
    (collapseDashes (x :: xs)).head? = some x := by
  intro x xs
  induction xs generalizing x with
  | nil => rfl
  | cons b t ih =>
      rw [collapseDashes]
      split
      · next hab =>
          have hx : x = '-' := by simpa using (Bool.and_eq_true ..).mp hab |>.1
          have hb : b = '-' := by simpa using (Bool.and_eq_true ..).mp hab |>.2
          rw [ih b, hx, hb]
      · rfl

theorem chain_collapseDashes : ∀ l : List Char, (collapseDashes l).Chain' noDD := by
  intro l
  induction l using collapseDashes.induct with
  | case1 => simp [collapseDashes]
  | case2 x => simp [collapseDashes]
  | case3 a b rest hab ih =>
      rw [collapseDashes, if_pos hab]
      exact ih
  | case4 a b rest hab ih =>
      rw [collapseDashes, if_neg hab]
      refine List.chain'_cons'.mpr ⟨?_, ih⟩
      intro y hy
      rw [collapseDashes_head b rest] at hy
      have hyb : b = y := by simpa using hy
      subst hyb
      intro hc
      exact hab (by simp [hc.1, hc.2])

theorem chain_dropWhile {R : Char → Char → Prop} (p : Char → Bool) :
    ∀ {l : List Char}, l.Chain' R → (l.dropWhile p).Chain' R := by
  intro l
  induction l with
  | nil => simp
  | cons a t ih =>
      intro h
      rw [List.dropWhile_cons]
      split
      · exact ih h.tail
      · exact h

theorem noDD_flip {a b : Char} (h : noDD a b) : flip noDD a b := by
  intro hc
  exact h ⟨hc.2, hc.1⟩

theorem chain_reverse_noDD {l : List Char} (h : l.Chain' noDD) : l.reverse.Chain' noDD := by
  rw [List.chain'_reverse]
  exact h.imp (fun _ _ hab hc => hab ⟨hc.2, hc.1⟩)

theorem chain_stripDashes {l : List Char} (h : l.Chain' noDD) : (stripDashes l).Chain' noDD :=
  chain_reverse_noDD (chain_dropWhile _ (chain_reverse_noDD (chain_dropWhile _ h)))

theorem head_dropWhile_not (p : Char → Bool) :
    ∀ (l : List Char) (a : Char), (l.dropWhile p).head? = some a → p a = false := by
  intro l
  induction l with
  | nil => intro a h; simp at h
  | cons x t ih =>
      intro a h
      rw [List.dropWhile_cons] at h
      split at h
      · exact ih a h
      · next hx =>
          have : x = a := by simpa using h
          simpa [this] using hx

theorem getLast?_dropWhile (p : Char → Bool) :
    ∀ l : List Char, (l.dropWhile p).getLast? = none ∨ (l.dropWhile p).getLast? = l.getLast? := by
  intro l
  induction l with
  | nil => left; rfl
  | cons x t ih =>
      rw [List.dropWhile_cons]
      split
      · rcases ih with h | h
        · left; exact h
        · cases t with
          | nil =>
              left
              simp_all
          | cons b s =>
              right
              rw [h, List.getLast?_cons_cons]
      · right; rfl

theorem stripDashes_subset {c : Char} {l : List Char} (h : c ∈ stripDashes l) : c ∈ l := by
  unfold stripDashes at h
  rw [List.mem_reverse] at h
  have h1 := ((List.dropWhile_suffix _).sublist).mem h
  rw [List.mem_reverse] at h1
  exact ((List.dropWhile_suffix _).sublist).mem h1

theorem stripDashes_length_le (l : List Char) : (stripDashes l).length ≤ l.length := by
  unfold stripDashes
  rw [List.length_reverse]
  calc ((l.dropWhile (· = '-')).reverse.dropWhile (· = '-')).length
      ≤ (l.dropWhile (· = '-')).reverse.length :=
        ((List.dropWhile_suffix _).sublist).length_le
    _ = (l.dropWhile (· = '-')).length := List.length_reverse _
    _ ≤ l.length := ((List.dropWhile_suffix _).sublist).length_le

theorem stripDashes_head_ne (l : List Char) : (stripDashes l).head? ≠ some '-' := by
  unfold stripDashes
  rw [List.head?_reverse]
  rcases getLast?_dropWhile (· = '-') (l.dropWhile (· = '-')).reverse with h | h
  · rw [h]; simp
  · rw [h, List.getLast?_reverse]
    intro hc
    have := head_dropWhile_not (· = '-') l '-' hc
    simp at this

theorem stripDashes_getLast_ne (l : List Char) : (stripDashes l).getLast? ≠ some '-' := by
  unfold stripDashes
  rw [List.getLast?_reverse]
  intro hc
  have := head_dropWhile_not (· = '-') (l.dropWhile (· = '-')).reverse '-' hc
  simp at this

/-- All structural properties of the slugifier's output at once:
length-bounded by 50, only slug characters, no dash at either end, no
two adjacent dashes. -/
theorem slug_props (l : List Char) :
    (smartTruncate (slugCore l) 50).length ≤ 50 ∧
    (∀ c ∈ smartTruncate (slugCore l) 50, slugAllowed c = true) ∧
    (smartTruncate (slugCore l) 50).head? ≠ some '-' ∧
    (smartTruncate (slugCore l) 50).getLast? ≠ some '-' ∧
    (smartTruncate (slugCore l) 50).Chain' noDD := by
  have hmem : ∀ c ∈ slugCore l, slugAllowed c = true := by
    intro c hc
    have h1 := stripDashes_subset hc
    have h2 := mem_collapseDashes h1
    rcases List.mem_map.mp h2 with ⟨d, _, hd⟩
    exact hd ▸ slugMapChar_allowed d
  have hchain : (slugCore l).Chain' noDD := chain_stripDashes (chain_collapseDashes _)
  have hhead : (slugCore l).head? ≠ some '-' := stripDashes_head_ne _
  have hlast : (slugCore l).getLast? ≠ some '-' := stripDashes_getLast_ne _
  unfold smartTruncate
  split
  · next hlen =>
      exact ⟨le_of_lt hlen, hmem, hhead, hlast, hchain⟩
  · refine ⟨?_, ?_, stripDashes_head_ne _, stripDashes_getLast_ne _, ?_⟩
    · calc (stripDashes ((slugCore l).take 50)).length
          ≤ ((slugCore l).take 50).length := stripDashes_length_le _
        _ ≤ 50 := List.length_take_le _ _
    · intro c hc
      exact hmem c (List.mem_of_mem_take (stripDashes_subset hc))
    · exact chain_stripDashes (hchain.take 50)

/-! ## Claim theorems -/

/-- C1 counterexample: in a group of two files whose primary fails to
decode while the second decodes fine, the whole group is skipped
(`processGroup = none`), although the failed file is not the group's
sole file — refuting the claim that only the single failed file is
skipped. -/
theorem c1_counterexample :
    (c1LoadR "b.jpg").isSome = true ∧
    processGroup c1LoadR (fun _ => "0123456789") none "prod" ["a.jpg", "b.jpg"] = none :=
  ⟨rfl, rfl⟩

/-- C1 (amended): a decode failure on a non-primary file skips only that
file — the group result is present exactly when the primary decodes, and
it contains one extra image per decodable file among the first
`MAX_EXTRAS` non-primary files; a decode failure on the primary file
skips the whole group regardless of how many files the group has. -/
theorem c1_decode_failures (loadR : String → Option Img) (md5 : String → String)
    (wmAsset : Option Img) (key primary : String) (rest : List String) :
    (processGroup loadR md5 wmAsset key (primary :: rest)).isSome = (loadR primary).isSome ∧
    (processGroup loadR md5 wmAsset key (primary :: rest)).map
        (fun r => r.additional_images.length) =
      (loadR primary).map (fun _ =>
        ((rest.take MAX_EXTRAS).filter fun f => (loadR f).isSome).length) := by
  cases h : loadR primary with
  | none => simp [processGroup, h]
  | some im =>
      obtain ⟨n, hn⟩ := Option.isSome_iff_exists.mp
        (calculate_price_isSome (parse_metadata_from_path primary).category
          (parse_metadata_from_path primary).location)
      simp [processGroup, h, hn, extrasLoop_length]

/-- C7: a group of 11 files that all decode yields exactly 5 primary
variant images (one per `VARIANTS` entry) and exactly `MAX_EXTRAS = 9`
extra derivatives; the 10th non-primary file (the 11th file) is ignored:
processing the group equals processing only its first
`1 + MAX_EXTRAS = 10` files. -/
theorem c7_eleven_files (loadR : String → Option Img) (md5 : String → String)
    (wmAsset : Option Img) (key : String) (files : List String)
    (hlen : files.length = 11) (hdec : ∀ f ∈ files, (loadR f).isSome) :
    (processGroup loadR md5 wmAsset key files).map
        (fun r => (r.variant_paths.length, r.additional_images.length)) = some (5, 9) ∧
    processGroup loadR md5 wmAsset key files =
      processGroup loadR md5 wmAsset key (files.take (1 + MAX_EXTRAS)) := by
  cases files with
  | nil => simp at hlen
  | cons primary rest =>
      obtain ⟨im, him⟩ := Option.isSome_iff_exists.mp
        (hdec primary (List.mem_cons_self _ _))
      obtain ⟨n, hn⟩ := Option.isSome_iff_exists.mp
        (calculate_price_isSome (parse_metadata_from_path primary).category
          (parse_metadata_from_path primary).location)
      have hrest : rest.length = 10 := by simpa using hlen
      have hfilter : ((rest.take MAX_EXTRAS).filter fun f => (loadR f).isSome) =
          rest.take MAX_EXTRAS := by
        rw [List.filter_eq_self]
        intro f hf
        simpa using hdec f (List.mem_cons_of_mem _ (List.mem_of_mem_take hf))
      constructor
      · have hlen9 : ((rest.take MAX_EXTRAS).filter fun f => (loadR f).isSome).length = 9 := by
          rw [hfilter]
          simp [List.length_take, hrest, MAX_EXTRAS]
        simp [processGroup, him, hn, extrasLoop_length, hlen9, VARIANTS]
      · have htake : (primary :: rest).take (1 + MAX_EXTRAS) =
            primary :: rest.take MAX_EXTRAS := by
          simp [MAX_EXTRAS]
        rw [htake]
        simp [processGroup, him, hn, List.take_take, MAX_EXTRAS]

/-- Witness for C7: eleven concrete files under an all-decoding oracle. -/
theorem c7_eleven_files_witness :
    (processGroup (fun _ => some cImg) (fun _ => "0123456789") none "big-sur"
        ["f01.jpg", "f02.jpg", "f03.jpg", "f04.jpg", "f05.jpg", "f06.jpg", "f07.jpg",
         "f08.jpg", "f09.jpg", "f10.jpg", "f11.jpg"]).map
        (fun r => (r.variant_paths.length, r.additional_images.length)) = some (5, 9) :=
  (c7_eleven_files (fun _ => some cImg) (fun _ => "0123456789") none "big-sur"
    ["f01.jpg", "f02.jpg", "f03.jpg", "f04.jpg", "f05.jpg", "f06.jpg", "f07.jpg",
     "f08.jpg", "f09.jpg", "f10.jpg", "f11.jpg"] rfl (fun _ _ => rfl)).1

/-- Witness for C1 (amended) at a singleton group with a decodable
primary. -/
theorem c1_decode_failures_witness :
    (processGroup c1LoadR (fun _ => "0123456789") none "prod" ["b.jpg"]).isSome =
      (c1LoadR "b.jpg").isSome :=
  (c1_decode_failures c1LoadR (fun _ => "0123456789") none "prod" "b.jpg" []).1

/-- C2 counterexample: for the filename `"___.jpg"` the regex does not
match (no four-digit run), the fallback stem is the part of `"___"`
before the first underscore — the empty string — and slugification
returns the empty string: `product_key` is not always non-empty. -/
theorem c2_counterexample : product_key "___.jpg" = "" := by decide

/-- C2 (amended): for every input filename, `product_key` returns a
string of length at most 50 all of whose characters are lowercase
alphanumerics or hyphens, with no hyphen at either end and no two
adjacent hyphens — but the string may be empty (e.g. when the stem has
no alphanumeric characters), so non-emptiness does not hold. -/
theorem c2_slug_shape (s : String) :
    (product_key s).length ≤ 50 ∧
    (∀ c ∈ (product_key s).toList, slugAllowed c = true) ∧
    (product_key s).toList.head? ≠ some '-' ∧
    (product_key s).toList.getLast? ≠ some '-' ∧
    (product_key s).toList.Chain' noDD := by
  unfold product_key slugify50
  exact slug_props _

/-- Witness for C2 (amended) at the spec's sample filename. -/
theorem c2_slug_shape_witness :
    (product_key "Big_Sur_Coastal_Sunset_main_01_1234_abcd.jpg").length ≤ 50 ∧
    (product_key "Big_Sur_Coastal_Sunset_main_01_1234_abcd.jpg").toList.head? ≠ some '-' :=
  ⟨(c2_slug_shape "Big_Sur_Coastal_Sunset_main_01_1234_abcd.jpg").1,
   (c2_slug_shape "Big_Sur_Coastal_Sunset_main_01_1234_abcd.jpg").2.2.1⟩

/-- C3 counterexample: a square 1000x1000 base with a landscape 400x200
watermark, watermarking enabled and the asset present.  The watermark is
resized to `(200, 100)`, whose shorter dimension `100` differs from
`int(0.20 * 1000) = 200`; compositing does succeed (pixel `(900, 950)`
carries the watermark), so the claim's equality fails for landscape
watermark shapes. -/
theorem c3_counterexample :
    watermarkScaledSize c3Base c3WmLandscape = (200, 100) ∧
    min (watermarkScaledSize c3Base c3WmLandscape).1
        (watermarkScaledSize c3Base c3WmLandscape).2 ≠ wmTargetShort c3Base ∧
    (add_watermark (some c3WmLandscape) c3Base).pix 900 950 =
      Px.wm 120 70 (Px.orig 0 0) :=
  ⟨rfl, by decide, rfl⟩

/-- C3 (amended): `add_watermark` scales the watermark so that its
*width* equals `int(WATERMARK_SCALE * min(base.size))`, the height
following by aspect-preserving (floored) proportion; the watermark's
shorter dimension therefore equals that target exactly when the
watermark is portrait or square (`width ≤ height`), and is the floored
proportional height otherwise. -/
theorem c3_watermark_scale (base wmIm : Img) (hw : 0 < wmIm.width) :
    (watermarkScaledSize base wmIm).1 = wmTargetShort base ∧
    (wmIm.width ≤ wmIm.height →
      min (watermarkScaledSize base wmIm).1 (watermarkScaledSize base wmIm).2 =
        wmTargetShort base) ∧
    (wmIm.height < wmIm.width →
      min (watermarkScaledSize base wmIm).1 (watermarkScaledSize base wmIm).2 =
        wmTargetShort base * wmIm.height / wmIm.width) := by
  refine ⟨rfl, ?_, ?_⟩
  · intro h
    have : wmTargetShort base ≤ wmTargetShort base * wmIm.height / wmIm.width := by
      calc wmTargetShort base = wmTargetShort base * wmIm.width / wmIm.width := by
            rw [Nat.mul_div_cancel _ hw]
        _ ≤ wmTargetShort base * wmIm.height / wmIm.width :=
            Nat.div_le_div_right (Nat.mul_le_mul_left _ h)
    simpa [watermarkScaledSize] using this
  · intro h
    have : wmTargetShort base * wmIm.height / wmIm.width ≤ wmTargetShort base := by
      calc wmTargetShort base * wmIm.height / wmIm.width
          ≤ wmTargetShort base * wmIm.width / wmIm.width :=
            Nat.div_le_div_right (Nat.mul_le_mul_left _ (le_of_lt h))
        _ = wmTargetShort base := Nat.mul_div_cancel _ hw
    simpa [watermarkScaledSize] using this

/-- Witness for C3 (amended) at a portrait watermark, where the shorter
dimension does equal the 0.20 target. -/
theorem c3_watermark_scale_witness :
    (watermarkScaledSize c3Base c3WmPortrait).1 = wmTargetShort c3Base ∧
    min (watermarkScaledSize c3Base c3WmPortrait).1
        (watermarkScaledSize c3Base c3WmPortrait).2 = wmTargetShort c3Base :=
  ⟨(c3_watermark_scale c3Base c3WmPortrait (by decide)).1,
   (c3_watermark_scale c3Base c3WmPortrait (by decide)).2.1 (by decide)⟩

/-- C4: for every `VARIANTS` entry `(label, w, h, bg)` and every loaded
source image, the emitted derivative (`add_watermark` after
`pad_resize`) is an `"RGB"` image of exactly `(w, h)`; the pasted
thumbnail fits inside the canvas (never cropped), never exceeds the
source (never enlarged), preserves the aspect ratio up to PIL's
one-pixel rounding, and sits centered on the canvas with every pixel
outside it equal to the background color `bg`. -/
theorem c4_variant_geometry (v : VariantSpec) (hv : v ∈ VARIANTS) (im : Img)
    (wmA : Option Img) (hw : 0 < im.width) (hh : 0 < im.height) :
    (add_watermark wmA (pad_resize im v.w v.h v.bg)).width = v.w ∧
    (add_watermark wmA (pad_resize im v.w v.h v.bg)).height = v.h ∧
    (add_watermark wmA (pad_resize im v.w v.h v.bg)).mode = "RGB" ∧
    (thumbnailSize im.width im.height v.w v.h).1 ≤ v.w ∧
    (thumbnailSize im.width im.height v.w v.h).2 ≤ v.h ∧
    (thumbnailSize im.width im.height v.w v.h).1 ≤ im.width ∧
    (thumbnailSize im.width im.height v.w v.h).2 ≤ im.height ∧
    Nat.dist ((thumbnailSize im.width im.height v.w v.h).1 * im.height)
      ((thumbnailSize im.width im.height v.w v.h).2 * im.width) ≤
      max im.width im.height ∧
    (∀ x y, (pad_resize im v.w v.h v.bg).pix x y =
      if (v.w - (thumbnailSize im.width im.height v.w v.h).1) / 2 ≤ x ∧
          x < (v.w - (thumbnailSize im.width im.height v.w v.h).1) / 2 +
            (thumbnailSize im.width im.height v.w v.h).1 ∧
          (v.h - (thumbnailSize im.width im.height v.w v.h).2) / 2 ≤ y ∧
          y < (v.h - (thumbnailSize im.width im.height v.w v.h).2) / 2 +
            (thumbnailSize im.width im.height v.w v.h).2 then
        Px.sub (x - (v.w - (thumbnailSize im.width im.height v.w v.h).1) / 2)
          (y - (v.h - (thumbnailSize im.width im.height v.w v.h).2) / 2)
      else Px.bgc v.bg) := by
  have hpos : ∀ u ∈ VARIANTS, 0 < u.w ∧ 0 < u.h := by decide
  obtain ⟨g1, g2, g3⟩ := add_watermark_geometry wmA (pad_resize im v.w v.h v.bg)
  obtain ⟨t1, t2, t3, t4, t5⟩ :=
    thumbnailSize_spec im.width im.height v.w v.h hw hh (hpos v hv).1 (hpos v hv).2
  exact ⟨g1, g2, g3 rfl, t1, t2, t3, t4, t5, fun x y => rfl⟩

/-- Witness for C4 at the thumbnail variant and an 800x600 source. -/
theorem c4_variant_geometry_witness :
    (add_watermark none (pad_resize cImg 400 400 "#ffffff")).width = 400 ∧
    (add_watermark none (pad_resize cImg 400 400 "#ffffff")).mode = "RGB" :=
  ⟨(c4_variant_geometry ⟨"website_thumb_400", 400, 400, "#ffffff"⟩ (by decide) cImg none
      (by decide) (by decide)).1,
   (c4_variant_geometry ⟨"website_thumb_400", 400, 400, "#ffffff"⟩ (by decide) cImg none
      (by decide) (by decide)).2.2.1⟩

/-- C5: `generate_tags` returns at most 13 pairwise-distinct entries,
built by concatenating the base tags, the category extras, the
lowercased location (when not `"Other"`), and the product key's tokens
longer than 2 characters, deduplicated first-seen and truncated to 13
(the spec-shaped build is `specTagsList`). -/
theorem c5_tags_bounded (k c l : String) :
    generate_tags k c l = specTagsList k c l ∧
    (generate_tags k c l).length ≤ 13 ∧
    (generate_tags k c l).Nodup := by
  refine ⟨?_, ?_, ?_⟩
  · simp [generate_tags, specTagsList, List.append_assoc]
  · simp only [generate_tags]
    exact List.length_take_le _ _
  · simp only [generate_tags]
    exact List.Nodup.sublist (List.take_sublist _ _) (nodup_dedupKeepFirst _)

/-- Witness for C5 at the spec's sample product key. -/
theorem c5_tags_bounded_witness :
    (generate_tags "big-sur-coastal-sunset" "Landscapes" "California").length ≤ 13 ∧
    generate_tags "big-sur-coastal-sunset" "Landscapes" "California" =
      specTagsList "big-sur-coastal-sunset" "Landscapes" "California" :=
  ⟨(c5_tags_bounded "big-sur-coastal-sunset" "Landscapes" "California").2.1,
   (c5_tags_bounded "big-sur-coastal-sunset" "Landscapes" "California").1⟩

/-- C9: the tag list always begins with the five default tags in order,
so it has between 5 and 13 entries. -/
theorem c9_default_tags_first (k c l : String) :
    (generate_tags k c l).take 5 = DEFAULT_TAGS ∧
    5 ≤ (generate_tags k c l).length ∧ (generate_tags k c l).length ≤ 13 := by
  have hg : generate_tags k c l =
      (dedupKeepFirst (DEFAULT_TAGS ++ (categoryExtraTags c ++
        ((if l ≠ "Other" then [pyLower l] else []) ++
          (pySplitWs (k.replace "-" " ")).filter fun x => 2 < x.length)))).take 13 := by
    simp [generate_tags, List.append_assoc]
  rw [hg, dedup_five]
  refine ⟨?_, ?_, ?_⟩
  · simp [List.take_take, DEFAULT_TAGS, List.take_succ_cons]
  · simp [List.length_take]
  · exact List.length_take_le _ _

/-- C6: for every pair of strings `(category, location)`, including pairs
absent from the price matrix, `calculate_price` returns a value without
raising; a missing category falls back to the `"Other"` row, and a
missing location within the selected row falls back to that row's
`"Other"` column. -/
theorem c6_price_fallback (category location : String) :
    (calculate_price category location).isSome ∧
    (lookupStr PRICE_MATRIX category = none →
      calculate_price category location = calculate_price "Other" location) ∧
    (lookupStr (priceRowFor category) location = none →
      calculate_price category location = lookupStr (priceRowFor category) "Other") := by
  refine ⟨calculate_price_isSome category location, ?_, ?_⟩
  · intro h
    have hrow : priceRowFor category = priceRowFor "Other" := by
      unfold priceRowFor
      rw [h]
      rfl
    rw [calculate_price_eq, calculate_price_eq, hrow]
  · intro h
    obtain ⟨d, hd⟩ := Option.isSome_iff_exists.mp (priceRow_has_other category)
    rw [calculate_price_eq, hd, h]
    simp [hd]

/-- Witness for C6 at a `(category, location)` pair absent from the
matrix. -/
theorem c6_price_fallback_witness :
    calculate_price "Portraits" "Nevada" = calculate_price "Other" "Nevada" ∧
    calculate_price "Portraits" "Nevada" = lookupStr (priceRowFor "Portraits") "Other" :=
  ⟨(c6_price_fallback "Portraits" "Nevada").2.1 (by decide),
   (c6_price_fallback "Portraits" "Nevada").2.2 (by decide)⟩

/-- C8: the flattened row written to `products_for_import.csv` agrees
field-for-field with the in-memory website record also written to
`website_products.json`: title, description, image_url (the record's
`web_path`), base_price, category, tags (joined), width, and height. -/
theorem c8_csv_roundtrip (p : WebsiteProduct) :
    (websiteCsvRow p).title = p.title ∧
    (websiteCsvRow p).description = p.description ∧
    (websiteCsvRow p).image_url = p.web_path ∧
    (websiteCsvRow p).base_price = p.base_price ∧
    (websiteCsvRow p).category = p.category ∧
    (websiteCsvRow p).tags = String.intercalate ", " p.tags ∧
    (websiteCsvRow p).width = p.dimensions.width ∧
    (websiteCsvRow p).height = p.dimensions.height :=
  ⟨rfl, rfl, rfl, rfl, rfl, rfl, rfl, rfl⟩

/-- Witness for C9 at the spec's sample inputs. -/
theorem c9_default_tags_first_witness :
    (generate_tags "big-sur-coastal-sunset" "Landscapes" "California").take 5 = DEFAULT_TAGS :=
  (c9_default_tags_first "big-sur-coastal-sunset" "Landscapes" "California").1

/-- A sample website record. -/
def sampleWebsiteProduct : WebsiteProduct :=
  { id := "big-sur",
    title := "Big Sur",
    description := "Beautiful landscapes photography from California.",
    category := "Landscapes",
    location := "California",
    image_type := "Main_Images",
    web_path := "/images/big-sur_website_medium_1000.jpg",
    thumbnail_path := "/images/big-sur_website_thumb_400.jpg",
    large_path := "/images/big-sur_website_large_1600.jpg",
    dimensions := ⟨800, 600⟩,
    tags := ["fine art print", "photography"],
    base_price := 50,
    variants := [] }

/-- Witness for C8 at a sample record. -/
theorem c8_csv_roundtrip_witness :
    (websiteCsvRow sampleWebsiteProduct).image_url = sampleWebsiteProduct.web_path ∧
    (websiteCsvRow sampleWebsiteProduct).tags =
      String.intercalate ", " sampleWebsiteProduct.tags :=
  ⟨(c8_csv_roundtrip sampleWebsiteProduct).2.2.1,
   (c8_csv_roundtrip sampleWebsiteProduct).2.2.2.2.2.1⟩

/-- C10: a path whose lowercasing contains the two-character substring
`"ca"` and none of `"hawaii"`, `"maui"`, `"oahu"` is assigned location
`"California"`; and the location `"Other"` is returned exactly when the
path contains none of the location keywords (two-letter codes `"ca"` and
`"az"` included). -/
theorem c10_ca_substring (p : String) :
    (containsSub "ca" (pyLower p) = true →
      containsSub "hawaii" (pyLower p) = false →
      containsSub "maui" (pyLower p) = false →
      containsSub "oahu" (pyLower p) = false →
      (parse_metadata_from_path p).location = "California") ∧
    ((parse_metadata_from_path p).location = "Other" ↔
      ∀ kw ∈ ["hawaii", "maui", "oahu", "california", "ca", "big_sur", "carmel",
              "monterey", "arizona", "az", "sedona", "flagstaff"],
        containsSub kw (pyLower p) = false) := by
  constructor
  · intro hca h1 h2 h3
    simp [parse_metadata_from_path, parseLocation, h1, h2, h3, hca]
  · simp only [parse_metadata_from_path, parseLocation, List.forall_mem_cons]
    constructor
    · intro h
      split_ifs at h with hA hB hC
      · exact absurd h (by decide)
      · exact absurd h (by decide)
      · exact absurd h (by decide)
      · simp only [Bool.or_eq_true, not_or, Bool.not_eq_true] at hA hB hC
        simp_all
    · intro h
      obtain ⟨h1, h2, h3, h4, h5, h6, h7, h8, h9, h10, h11, h12, -⟩ := h
      simp [h1, h2, h3, h4, h5, h6, h7, h8, h9, h10, h11, h12]

/-- Witness for C10 at `"vacation.jpg"`, whose `"ca"` comes from the word
"vacation". -/
theorem c10_ca_substring_witness :
    (parse_metadata_from_path "vacation.jpg").location = "California" :=
  (c10_ca_substring "vacation.jpg").1 rfl rfl rfl rfl

end EtsyPipeline
